import Mathlib

/-!
# Verification of `hscommon/testutil.py`

A shallow embedding of the test-support module `testutil.py`:
the call-logging GUI double (`CallLogger`), the reversible attribute
patcher (`Patcher`, `patch_today`) and the argument-unification routine
(`_unify_args`), together with proofs of the specified properties.

Conventions of the embedding:
* Python objects are identified by `Nat` ids; an attribute state
  ("world") is a function from (object id, attribute name) to a value.
  Python `is` identity on plain object values is equality of ids.
* A Python method that either returns normally or raises `AssertionError`
  is modelled as returning a `Bool` (`true` = returned normally,
  `false` = raised) paired with the state it leaves behind; statements
  that are only reached when no exception was raised earlier are placed
  after the corresponding test, exactly as in the source control flow.
-/

set_option autoImplicit false

/-! ## CallLogger (`testutil.py`, class `CallLogger`)

The mutable state of a `CallLogger` is its `calls` list (a list of
method-name strings).  `check_gui_calls` and `check_gui_calls_partial`
are modelled as functions from the current `calls` list (plus the
arguments) to `(passed, calls after the invocation)`.  In the source,
`self.clear_calls()` is the *last* statement and the `assert`s come
before it, so a failing check raises before the log is cleared. -/

/-- `eq_(set(calls), set(expected))` of the source: Python set equality. -/
def pySetEq (a b : List String) : Bool :=
  decide (a.toFinset = b.toFinset)

/-- `CallLogger.check_gui_calls(expected, verify_order)`:
`eq_(self.calls, expected)` when ordered, `eq_` on the two sets
otherwise, then `self.clear_calls()`.  Returns
`(passed, calls after return/raise)`. -/
def check_gui_calls (calls expected : List String) (verify_order : Bool) :
    Bool × List String :=
  let passed := if verify_order then decide (calls = expected) else pySetEq calls expected
  if passed then (true, ([] : List String)) else (false, calls)

/-- The `verify_order` loop of `check_gui_calls_partial`: walks `expected`,
taking each name's first-occurrence index in `calls`
(`self.calls.index(call)`) and failing as soon as an index is smaller
than the previous one (`max_index`). -/
def orderCheck (calls : List String) : List String → Nat → Bool
  | [], _ => true
  | c :: rest, maxIdx =>
    let index := calls.findIdx (fun x => x == c)
    if index < maxIdx then false else orderCheck calls rest index

/-- The `if expected is not None:` block of `check_gui_calls_partial`:
`assert not (set(expected) - set(self.calls))`, then the optional
first-occurrence order check.  `true` iff no `AssertionError` is raised. -/
def partialStep1 (calls : List String) (expected : Option (List String))
    (verify_order : Bool) : Bool :=
  match expected with
  | none => true
  | some exp =>
    if exp.all (fun e => decide (e ∈ calls)) then
      if verify_order then orderCheck calls exp 0 else true
    else false

/-- The `if not_expected is not None:` block of `check_gui_calls_partial`:
`assert not (set(not_expected) & set(self.calls))`.  `true` iff no
`AssertionError` is raised. -/
def partialStep2 (calls : List String) (not_expected : Option (List String)) : Bool :=
  match not_expected with
  | none => true
  | some nexp => nexp.all (fun n => decide (n ∉ calls))

/-- `CallLogger.check_gui_calls_partial(expected, not_expected, verify_order)`:
subset check on `expected`, optional first-occurrence order check,
absence check on `not_expected`, then `self.clear_calls()`.  Returns
`(passed, calls after return/raise)`; a failing `assert` raises before
the clear, leaving `calls` unchanged. -/
def check_gui_calls_partial (calls : List String)
    (expected not_expected : Option (List String)) (verify_order : Bool) :
    Bool × List String :=
  if partialStep1 calls expected verify_order = false then (false, calls)
  else if partialStep2 calls not_expected = false then (false, calls)
  else (true, ([] : List String))

/-! ## Patcher (`testutil.py`, class `Patcher`)

Attribute state of the whole process ("world") is a function from
(object id, attribute name) to a value of type `α`; `setattr` is a
function update.  A `Patcher` carries the `_patched` record list (in
append order, as the source appends to `self._patched`), the optional
`_target_module` (as an object id), and the key list of that module's
`__dict__` (the bindings scanned by the "from-import" alias fix).
Python `is` identity between values is equality in `α`. -/

/-- The process-wide attribute state: (object id, attribute name) ↦ value. -/
def World (α : Type) : Type := Nat × String → α

/-- `setattr(target, attrname, value)` as a function update on the world. -/
def setattr {α : Type} (w : World α) (t : Nat) (a : String) (v : α) : World α :=
  fun p => if p = (t, a) then v else w p

/-- The `Patcher` instance state: `_patched` records `(target, attrname,
oldvalue)` triples in the order `patch` appended them; `_target_module`
and its `__dict__` key list parameterise the alias scan. -/
structure Patcher (α : Type) where
  patched : List (Nat × String × α)
  target_module : Option Nat
  module_keys : List String

/-- `Patcher.__init__(target_module)`: empty record list, no patch applied. -/
def Patcher.init (α : Type) (tm : Option Nat) (keys : List String) : Patcher α :=
  ⟨[], tm, keys⟩

/-- The unconditional core of `Patcher.patch`: record
`(target, attrname, oldvalue)` in `self._patched`, then
`setattr(target, attrname, replace_with)`.  This is exactly what the
recursive `patch(self._target_module, key, replace_with)` call performs,
since there `target` *is* the target module and the scan guard fails. -/
def Patcher.patch1 {α : Type} (p : Patcher α) (w : World α) (t : Nat) (a : String)
    (v : α) : Patcher α × World α :=
  let oldvalue := w (t, a)
  ({ p with patched := p.patched ++ [(t, a, oldvalue)] }, setattr w t a v)

/-- `Patcher.patch(target, attrname, replace_with)`: the core step, then —
when a target module distinct from `target` is set — a scan of the
module's `__dict__` patching every binding whose value is (identical to)
the old value.  The scan reads the evolving world, as Python reads the
live `__dict__` values during iteration. -/
def Patcher.patch {α : Type} [DecidableEq α] (p : Patcher α) (w : World α) (t : Nat)
    (a : String) (v : α) : Patcher α × World α :=
  let oldvalue := w (t, a)
  let pw := p.patch1 w t a v
  match p.target_module with
  | none => pw
  | some m =>
    if m ≠ t then
      p.module_keys.foldl
        (fun pw key => if pw.2 (m, key) = oldvalue then pw.1.patch1 pw.2 m key v else pw)
        pw
    else pw

/-- Replay a list of `(target, attrname, value)` records onto the world. -/
def applyPatches {α : Type} (l : List (Nat × String × α)) (w : World α) : World α :=
  l.foldl (fun w r => setattr w r.1 r.2.1 r.2.2) w

/-- `Patcher.unpatch()`: `setattr(target, attrname, old_value)` for the
records in `reversed(self._patched)`.  The record list itself is not
cleared, so the returned patcher is unchanged. -/
def Patcher.unpatch {α : Type} (p : Patcher α) (w : World α) : Patcher α × World α :=
  (p, applyPatches p.patched.reverse w)

/-- A patching action performed by a test body: one `patch` call. -/
inductive POp (α : Type) where
  | patch (target : Nat) (attr : String) (v : α)

/-- Run a sequence of `patch` calls against a patcher and a world. -/
def runOps {α : Type} [DecidableEq α] :
    Patcher α → World α → List (POp α) → Patcher α × World α
  | p, w, [] => (p, w)
  | p, w, POp.patch t a v :: rest =>
    let pw := p.patch w t a v
    runOps pw.1 pw.2 rest

/-- The `with Patcher(...) as p:` discipline: `__init__` + `__enter__`
apply nothing, the body runs its `patch` calls and possibly raises
(`exn`), and `__exit__` calls `unpatch()` once and returns `False`, so
the exception propagates unchanged. -/
def runWith {α : Type} [DecidableEq α] (tm : Option Nat) (keys : List String)
    (w : World α) (ops : List (POp α)) (exn : Option Nat) : World α × Option Nat :=
  let p := Patcher.init α tm keys
  let pw := runOps p w ops
  (((pw.1.unpatch pw.2).2), exn)

/-! ## patch_today (`Patcher.patch_today`)

`datetime.date` arithmetic is embedded through the proleptic Gregorian
ordinal (`date.toordinal()`), mirroring CPython's `datetime` module, so
that `(today - new_today).days` is the difference of ordinals.  The
value stored in the `time.time` slot is modelled by `TimeVal`: the real
clock (`real`, reading the current instant), or the constant function
`lambda: time_now - delta.days * 24 * 60 * 60` installed by
`patch_today` (`const`). -/

/-- A value bound to the `time.time` attribute. -/
inductive TimeVal where
  | real : TimeVal
  | const : Int → TimeVal
  | obj : Nat → TimeVal
deriving DecidableEq

/-- Calling the time source at true instant `t`: the real clock returns
`t`; the patched lambda returns its captured constant. -/
def readTime : TimeVal → Int → Int
  | TimeVal.real, t => t
  | TimeVal.const v, _ => v
  | TimeVal.obj _, _ => 0

/-- Object id of the `time` module. -/
def timeModule : Nat := 0

/-- `calendar.isleap` as used by `datetime.date`. -/
def isLeap (y : Nat) : Bool :=
  y % 4 == 0 && (y % 100 != 0 || y % 400 == 0)

/-- Days in month `m` of year `y` (CPython `_days_in_month`). -/
def daysInMonth (y m : Nat) : Nat :=
  if m = 2 then (if isLeap y then 29 else 28)
  else if m = 4 ∨ m = 6 ∨ m = 9 ∨ m = 11 then 30
  else 31

/-- Days in year `y` before month `m` (CPython `_days_before_month`). -/
def daysBeforeMonth (y m : Nat) : Nat :=
  (List.range (m - 1)).foldl (fun acc i => acc + daysInMonth y (i + 1)) 0

/-- `date(y, m, d).toordinal()`: day count with 0001-01-01 as day 1. -/
def toOrdinal (y m d : Nat) : Nat :=
  (y - 1) * 365 + (y - 1) / 4 - (y - 1) / 100 + (y - 1) / 400 + daysBeforeMonth y m + d

/-- `Patcher.patch_today(year, month, day)`: captures the real date
(`realY/realM/realD`) and the real `time.time()` value (`time_now`),
computes `delta = today - new_today`, and patches `time.time` with
`lambda: time_now - delta.days * 24 * 60 * 60`. -/
def Patcher.patch_today (p : Patcher TimeVal) (w : World TimeVal)
    (realY realM realD : Nat) (time_now : Int) (year month day : Nat) :
    Patcher TimeVal × World TimeVal :=
  let delta : Int := (toOrdinal realY realM realD : Int) - (toOrdinal year month day : Int)
  p.patch w timeModule "time" (TimeVal.const (time_now - delta * (24 * 60 * 60)))

/-! ## _unify_args (`testutil.py`, `_unify_args`)

Python values are embedded as `PyVal` (enough structure for the claims:
ints, strings, tuples and opaque objects).  A Python `dict` is an
insertion-ordered association list with unique keys maintained by the
operations themselves: `dset` (assignment) overwrites in place or
appends, `setdefault` adds only when the key is absent, `ddel` (`del`)
removes or raises `KeyError` (`none`).  A function's introspectable
surface is `PyFunc`: `hasattr(func, '__code__')`, `func.__self__`,
`func.__defaults__` (empty list for `None`), `func.__code__.co_argcount`
and `co_varnames`. -/

/-- An embedded Python value. -/
inductive PyVal where
  | int : Int → PyVal
  | str : String → PyVal
  | tuple : List PyVal → PyVal
  | obj : Nat → PyVal

/-- `d[k]` lookup (first — and only — entry with key `k`). -/
def dget (d : List (String × PyVal)) (k : String) : Option PyVal :=
  (d.find? (fun e => e.1 == k)).map (fun e => e.2)

/-- `k in d`. -/
def dmem (d : List (String × PyVal)) (k : String) : Bool :=
  (dget d k).isSome

/-- `d[k] = v`: update in place when present (keeping insertion order),
append otherwise. -/
def dset : List (String × PyVal) → String → PyVal → List (String × PyVal)
  | [], k, v => [(k, v)]
  | (k0, v0) :: rest, k, v =>
    if k0 == k then (k0, v) :: rest else (k0, v0) :: dset rest k v

/-- `d.setdefault(k, v)`: add only when `k` is absent. -/
def setdefault (d : List (String × PyVal)) (k : String) (v : PyVal) :
    List (String × PyVal) :=
  if dmem d k then d else d ++ [(k, v)]

/-- `del d[k]`: remove the entry, or `KeyError` (`none`) when absent. -/
def ddel : List (String × PyVal) → String → Option (List (String × PyVal))
  | [], _ => none
  | (k0, v0) :: rest, k =>
    if k0 == k then some rest else (ddel rest k).map (fun r => (k0, v0) :: r)

/-- The introspectable surface of a Python callable, as `_unify_args`
reads it. -/
structure PyFunc where
  has_code : Bool
  self_val : Option PyVal
  defaults : List PyVal
  co_argcount : Nat
  co_varnames : List String

/-- `_unify_args(func, args, kwargs, args_to_ignore)`.  `kwargs` is
copied; for an introspectable function the receiver of a bound method is
prepended, missing trailing positionals are filled from
`defaults[-required_arg_count:]`, and `zip(arg_names, args)` is folded
with `setdefault` (an explicit keyword is never overwritten); a
non-introspectable callable stores the whole `args` tuple under the key
`"args"`.  A non-empty `args_to_ignore` deletes those keys (`KeyError`
→ `none`); `args_to_ignore = []` covers both Python `None` and an empty
list, which are falsy. -/
def _unify_args (func : PyFunc) (args : List PyVal)
    (kwargs : List (String × PyVal)) (args_to_ignore : List String) :
    Option (List (String × PyVal)) :=
  let result := kwargs
  let result :=
    if func.has_code then
      let args1 :=
        match func.self_val with
        | some s => s :: args
        | none => args
      let defaults := func.defaults
      let arg_count := func.co_argcount
      let arg_names := func.co_varnames
      let args2 :=
        if args1.length < arg_count then
          args1 ++ defaults.drop (defaults.length - (arg_count - args1.length))
        else args1
      (arg_names.zip args2).foldl (fun r e => setdefault r e.1 e.2) result
    else
      dset result "args" (PyVal.tuple args)
  if args_to_ignore.isEmpty then some result
  else args_to_ignore.foldl (fun r kw => r.bind (fun d => ddel d kw)) (some result)

/-! ## Lemmas about the CallLogger checks -/

/-- Python set equality on two lists holds iff they have the same members. -/
lemma pySetEq_iff (a b : List String) :
    pySetEq a b = true ↔ ∀ x : String, x ∈ a ↔ x ∈ b := by
  unfold pySetEq
  rw [decide_eq_true_iff, Finset.ext_iff]
  constructor
  · intro h x
    have := h x
    simpa [List.mem_toFinset] using this
  · intro h x
    simpa [List.mem_toFinset] using h x

/-- The result of `check_gui_calls`: the first component records whether
the `eq_` assertion passed, the log is cleared exactly when it did. -/
lemma check_gui_calls_eq (calls expected : List String) (vo : Bool) :
    check_gui_calls calls expected vo =
      (if vo then decide (calls = expected) else pySetEq calls expected,
       if (if vo then decide (calls = expected) else pySetEq calls expected)
         then [] else calls) := by
  unfold check_gui_calls
  cases h : (if vo then decide (calls = expected) else pySetEq calls expected) <;>
    simp [h]

/-- The order-verification loop passes iff the first-occurrence indices of
the expected names are at least `prev` and non-decreasing. -/
lemma orderCheck_iff (calls : List String) :
    ∀ (l : List String) (prev : Nat),
      orderCheck calls l prev = true ↔
        ((∀ h ∈ l.head?, prev ≤ calls.findIdx (fun x => x == h)) ∧
         List.Chain'
           (fun a b => calls.findIdx (fun x => x == a) ≤ calls.findIdx (fun x => x == b)) l)
  | [], prev => by simp [orderCheck]
  | c :: rest, prev => by
    rw [orderCheck]
    by_cases h : calls.findIdx (fun x => x == c) < prev
    · simp only [if_pos h]
      simp only [List.head?, Option.mem_def, Option.some.injEq, List.chain'_cons']
      constructor
      · intro hfalse
        exact absurd hfalse (by simp)
      · rintro ⟨h1, -⟩
        exact absurd (h1 c rfl) (by omega)
    · simp only [if_neg h]
      rw [orderCheck_iff calls rest (calls.findIdx (fun x => x == c))]
      simp only [List.head?, Option.mem_def, Option.some.injEq, List.chain'_cons']
      constructor
      · rintro ⟨h1, h2⟩
        exact ⟨fun x hx => hx ▸ Nat.le_of_not_lt h, ⟨fun y hy => h1 y hy, h2⟩⟩
      · rintro ⟨-, h1, h2⟩
        exact ⟨fun y hy => h1 y hy, h2⟩

/-- The pass/fail outcome and final log of `check_gui_calls_partial`. -/
lemma check_gui_calls_partial_eq (calls : List String)
    (exp nexp : Option (List String)) (vo : Bool) :
    check_gui_calls_partial calls exp nexp vo =
      (partialStep1 calls exp vo && partialStep2 calls nexp,
       if partialStep1 calls exp vo && partialStep2 calls nexp then [] else calls) := by
  unfold check_gui_calls_partial
  cases h1 : partialStep1 calls exp vo <;> cases h2 : partialStep2 calls nexp <;> simp

/-- `partialStep1` passes iff every expected call was recorded and, under
order verification, the first-occurrence indices are non-decreasing. -/
lemma partialStep1_iff (calls : List String) (exp : Option (List String)) (vo : Bool) :
    partialStep1 calls exp vo = true ↔
      ((∀ e ∈ exp.getD [], e ∈ calls) ∧
       (if vo = true then
          List.Chain'
            (fun a b => calls.findIdx (fun x => x == a) ≤ calls.findIdx (fun x => x == b))
            (exp.getD [])
        else True)) := by
  cases exp with
  | none => cases vo <;> simp [partialStep1]
  | some l =>
    simp only [partialStep1]
    by_cases hall : l.all (fun e => decide (e ∈ calls)) = true
    · rw [if_pos hall]
      have hmem : ∀ e ∈ l, e ∈ calls := by
        intro e he
        have := List.all_eq_true.mp hall e he
        simpa using this
      cases vo with
      | false => simpa using hmem
      | true =>
        rw [if_pos rfl, if_pos rfl, Option.getD_some]
        rw [orderCheck_iff]
        simp only [Nat.zero_le, implies_true, true_and]
        exact ⟨fun h => ⟨hmem, h⟩, fun h => h.2⟩
    · rw [if_neg hall]
      simp only [Bool.false_eq_true, false_iff]
      intro hcon
      apply hall
      rw [List.all_eq_true]
      intro e he
      simpa using hcon.1 e he

/-- `partialStep2` passes iff no not-expected call was recorded. -/
lemma partialStep2_iff (calls : List String) (nexp : Option (List String)) :
    partialStep2 calls nexp = true ↔ ∀ n ∈ nexp.getD [], n ∉ calls := by
  cases nexp with
  | none => simp [partialStep2]
  | some l => simp [partialStep2]

/-! ## Claims about the CallLogger -/

/-- **C1, counterexample.**  The claim says the call log is empty after
*every* `check_gui_calls` invocation, "whether the check passed or
failed".  With recorded calls `["a"]` and expected `[]` the check fails,
and the log still holds `["a"]`: the `assert` inside `eq_` raises before
`self.clear_calls()` is reached. -/
theorem claim_C1_counterexample :
    (check_gui_calls ["a"] [] false).1 = false ∧
      (check_gui_calls ["a"] [] false).2 ≠ [] := by
  constructor
  · rfl
  · intro h
    simp [check_gui_calls, pySetEq] at h

/-- **C1, amended.**  For every `CallLogger` state and every invocation of
`check_gui_calls` or `check_gui_calls_partial`, the call log is empty
after an invocation that passes; an invocation that fails raises the
assertion *before* `clear_calls()` runs, so the log is left unchanged. -/
theorem claim_C1_amended (calls expected : List String) (vo : Bool)
    (exp nexp : Option (List String)) :
    ((check_gui_calls calls expected vo).2 =
       (if (check_gui_calls calls expected vo).1 = true then [] else calls)) ∧
    (( check_gui_calls_partial calls exp nexp vo).2 =
       (if ( check_gui_calls_partial calls exp nexp vo).1 = true then [] else calls)) := by
  constructor
  · rw [check_gui_calls_eq]
  · rw [check_gui_calls_partial_eq]

/-- **C4.**  `check_gui_calls` with `verify_order=False` passes iff the set
of recorded call names equals the set of expected names (duplicates and
order are irrelevant); with `verify_order=True` it passes iff the
recorded sequence equals the expected sequence exactly. -/
theorem claim_C4 (calls expected : List String) :
    ((check_gui_calls calls expected false).1 = true ↔
      (∀ x : String, x ∈ calls ↔ x ∈ expected)) ∧
    ((check_gui_calls calls expected true).1 = true ↔ calls = expected) := by
  constructor
  · rw [check_gui_calls_eq]
    simpa using pySetEq_iff calls expected
  · rw [check_gui_calls_eq]
    simp

/-- **C5.**  `check_gui_calls_partial` passes iff every expected name was
recorded (extra recorded calls tolerated), under `verify_order` the
first-occurrence indices of the expected names are non-decreasing, and
no name in `not_expected` was recorded; moreover the claim's concrete
instances: for expected `["a","b"]`, recorded `["x","a","y","b"]` passes
with and without order verification, and recorded `["b","a"]` passes
without order verification but fails with it. -/
theorem claim_C5 (calls : List String) (exp nexp : Option (List String)) (vo : Bool) :
    (( check_gui_calls_partial calls exp nexp vo).1 = true ↔
      ((∀ e ∈ exp.getD [], e ∈ calls) ∧
       (if vo = true then
          List.Chain'
            (fun a b => calls.findIdx (fun x => x == a) ≤ calls.findIdx (fun x => x == b))
            (exp.getD [])
        else True) ∧
       (∀ n ∈ nexp.getD [], n ∉ calls))) ∧
    ( check_gui_calls_partial ["x", "a", "y", "b"] (some ["a", "b"]) none false).1 = true ∧
    ( check_gui_calls_partial ["x", "a", "y", "b"] (some ["a", "b"]) none true).1 = true ∧
    ( check_gui_calls_partial ["b", "a"] (some ["a", "b"]) none false).1 = true ∧
    ( check_gui_calls_partial ["b", "a"] (some ["a", "b"]) none true).1 = false := by
  refine ⟨?_, by decide, by decide, by decide, by decide⟩
  rw [check_gui_calls_partial_eq]
  simp only [Bool.and_eq_true, partialStep1_iff, partialStep2_iff]
  tauto

/-! ## Lemmas about the Patcher -/

/-- Writing back the value an attribute already has changes nothing. -/
lemma setattr_self {α : Type} (w : World α) (t : Nat) (a : String) :
    setattr w t a (w (t, a)) = w := by
  funext p
  unfold setattr
  by_cases h : p = (t, a)
  · subst h; simp
  · simp [h]

/-- A later write to the same attribute supersedes an earlier one. -/
lemma setattr_setattr {α : Type} (w : World α) (t : Nat) (a : String) (v v' : α) :
    setattr (setattr w t a v) t a v' = setattr w t a v' := by
  funext p
  unfold setattr
  by_cases h : p = (t, a) <;> simp [h]

/-- One `patch1` step preserves the world that `unpatch` would rebuild:
its record is the head of the reversed list and undoes its own write. -/
lemma unpatch_patch1 {α : Type} (p : Patcher α) (w : World α) (t : Nat) (a : String)
    (v : α) :
    applyPatches (p.patch1 w t a v).1.patched.reverse (p.patch1 w t a v).2 =
      applyPatches p.patched.reverse w := by
  unfold Patcher.patch1 applyPatches
  simp only [List.reverse_append, List.reverse_cons, List.reverse_nil, List.nil_append,
    List.singleton_append, List.foldl_cons]
  rw [setattr_setattr, setattr_self]

/-- The alias scan of `patch` is a fold of `patch1` steps, so it also
preserves the world that `unpatch` would rebuild. -/
lemma unpatch_patch_scan {α : Type} [DecidableEq α] (m : Nat) (v old : α) :
    ∀ (keys : List String) (pw : Patcher α × World α),
      applyPatches
          ((keys.foldl
              (fun pw key => if pw.2 (m, key) = old then pw.1.patch1 pw.2 m key v else pw)
              pw).1.patched.reverse)
          ((keys.foldl
              (fun pw key => if pw.2 (m, key) = old then pw.1.patch1 pw.2 m key v else pw)
              pw).2) =
        applyPatches pw.1.patched.reverse pw.2
  | [], pw => rfl
  | key :: rest, pw => by
    rw [List.foldl_cons]
    rw [unpatch_patch_scan m v old rest
      (if pw.2 (m, key) = old then pw.1.patch1 pw.2 m key v else pw)]
    by_cases h : pw.2 (m, key) = old
    · rw [if_pos h]
      exact unpatch_patch1 pw.1 pw.2 m key v
    · rw [if_neg h]

/-- A full `patch` call (core step plus alias scan) preserves the world
that `unpatch` would rebuild. -/
lemma unpatch_patch {α : Type} [DecidableEq α] (p : Patcher α) (w : World α) (t : Nat)
    (a : String) (v : α) :
    applyPatches (p.patch w t a v).1.patched.reverse (p.patch w t a v).2 =
      applyPatches p.patched.reverse w := by
  unfold Patcher.patch
  cases htm : p.target_module with
  | none => exact unpatch_patch1 p w t a v
  | some m =>
    by_cases h : m ≠ t
    · simp only [if_pos h]
      rw [unpatch_patch_scan m v (w (t, a)) p.module_keys (p.patch1 w t a v)]
      exact unpatch_patch1 p w t a v
    · simp only [if_neg h]
      exact unpatch_patch1 p w t a v

/-- Any sequence of `patch` calls preserves the world that `unpatch` would
rebuild. -/
lemma unpatch_runOps {α : Type} [DecidableEq α] :
    ∀ (ops : List (POp α)) (p : Patcher α) (w : World α),
      applyPatches (runOps p w ops).1.patched.reverse (runOps p w ops).2 =
        applyPatches p.patched.reverse w
  | [], p, w => rfl
  | POp.patch t a v :: rest, p, w => by
    rw [runOps]
    rw [unpatch_runOps rest (p.patch w t a v).1 (p.patch w t a v).2]
    exact unpatch_patch p w t a v

/-- Starting from a fresh patcher, `unpatch` after any sequence of `patch`
calls rebuilds the starting world exactly. -/
lemma unpatch_restores {α : Type} [DecidableEq α] (tm : Option Nat)
    (keys : List String) (w : World α) (ops : List (POp α)) :
    ((runOps (Patcher.init α tm keys) w ops).1.unpatch
        (runOps (Patcher.init α tm keys) w ops).2).2 = w := by
  unfold Patcher.unpatch
  exact unpatch_runOps ops (Patcher.init α tm keys) w

/-- `applyPatches` is characterized pointwise by the last record touching
the attribute, if any. -/
lemma applyPatches_apply {α : Type} :
    ∀ (l : List (Nat × String × α)) (w : World α) (q : Nat × String),
      applyPatches l w q =
        ((l.reverse.find? (fun r => (r.1, r.2.1) == q)).map (fun r => r.2.2)).getD (w q)
  | [], w, q => rfl
  | r :: rest, w, q => by
    unfold applyPatches
    rw [List.foldl_cons]
    have ih := applyPatches_apply rest (setattr w r.1 r.2.1 r.2.2) q
    unfold applyPatches at ih
    rw [ih]
    rw [List.reverse_cons, List.find?_append]
    cases hf : rest.reverse.find? (fun r => (r.1, r.2.1) == q) with
    | some r2 => simp [Option.or]
    | none =>
      by_cases h : (r.1, r.2.1) = q
      · have hbeq : ((r.1, r.2.1) == q) = true := by simp [h]
        simp only [Option.or, List.find?, hbeq, cond_true]
        unfold setattr
        simp [if_pos h.symm]
      · have hbeq : ((r.1, r.2.1) == q) = false := beq_eq_false_iff_ne.mpr h
        simp only [Option.or, List.find?, hbeq, cond_false, List.find?_nil]
        unfold setattr
        simp only [Option.map_none', Option.getD_none]
        rw [if_neg (fun hc => h hc.symm)]

/-- Replaying the same record list twice is the same as replaying it once. -/
lemma applyPatches_idem {α : Type} (l : List (Nat × String × α)) (w : World α) :
    applyPatches l (applyPatches l w) = applyPatches l w := by
  funext q
  rw [applyPatches_apply l (applyPatches l w) q, applyPatches_apply l w q]
  cases hf : l.reverse.find? (fun r => (r.1, r.2.1) == q) with
  | some r => simp
  | none => simp [applyPatches_apply l w q, hf]

/-! ## Claims about the Patcher -/

/-- **C3.**  For every target object, attribute and original value `V`,
and every sequence of `patch` calls by a fresh patcher (covering nested
and repeated patches of the same attribute, which `unpatch` unwinds in
reverse, most-recently-applied first), running `unpatch` leaves the
attribute equal to `V`. -/
theorem claim_C3 {α : Type} [DecidableEq α] (tm : Option Nat) (keys : List String)
    (w : World α) (ops : List (POp α)) (t : Nat) (a : String) (V : α)
    (hV : w (t, a) = V) :
    ((runOps (Patcher.init α tm keys) w ops).1.unpatch
        (runOps (Patcher.init α tm keys) w ops).2).2 (t, a) = V := by
  rw [unpatch_restores tm keys w ops]
  exact hV

/-- **C3, witness.**  A world where object 1's attribute `"x"` holds 5,
patched twice (nested) with 7 and then 9: after `unpatch` the attribute
holds 5 again. -/
theorem claim_C3_witness :
    ((fun _ => 5 : World Nat) (1, "x") = 5) ∧
      ((runOps (Patcher.init Nat none [] ) (fun _ => 5)
            [POp.patch 1 "x" 7, POp.patch 1 "x" 9]).1.unpatch
          (runOps (Patcher.init Nat none [] ) (fun _ => 5)
            [POp.patch 1 "x" 7, POp.patch 1 "x" 9]).2).2 (1, "x") = 5 :=
  ⟨rfl, claim_C3 none [] (fun _ => 5) [POp.patch 1 "x" 7, POp.patch 1 "x" 9] 1 "x" 5 rfl⟩

/-- **C9.**  Used as a scoped resource, a fresh `Patcher` applies nothing
at construction/entry, and leaving the scope runs `unpatch()` once —
restoring the starting world exactly — while the body's exception (if
any) propagates unchanged (`__exit__` returns `False`). -/
theorem claim_C9 {α : Type} [DecidableEq α] (tm : Option Nat) (keys : List String)
    (w : World α) (ops : List (POp α)) (exn : Option Nat) :
    runWith tm keys w ops exn = (w, exn) := by
  unfold runWith
  dsimp only
  rw [unpatch_restores tm keys w ops]

/-- **C10.**  `unpatch` neither clears the `_patched` record list nor, when
run a second time with no intervening patches, changes anything: it
replays the same writes, so the world after the second `unpatch` equals
the world after the first. -/
theorem claim_C10 {α : Type} (p : Patcher α) (w : World α) :
    ((p.unpatch w).1 = p) ∧
      ((p.unpatch (p.unpatch w).2).2 = (p.unpatch w).2) := by
  constructor
  · rfl
  · unfold Patcher.unpatch
    exact applyPatches_idem p.patched.reverse w

/-- A single `patch` by a fresh patcher followed by `unpatch` restores the
starting world. -/
lemma unpatch_patch_init {α : Type} [DecidableEq α] (tm : Option Nat)
    (keys : List String) (w : World α) (t : Nat) (a : String) (v : α) :
    (((Patcher.init α tm keys).patch w t a v).1.unpatch
        ((Patcher.init α tm keys).patch w t a v).2).2 = w := by
  unfold Patcher.unpatch
  dsimp only
  rw [unpatch_patch (Patcher.init α tm keys) w t a v]
  rfl

/-- **C6.**  `patch_today(year, month, day)` patches the time source with
the constant function `time_now - delta * 86400` seconds, where `delta`
is the whole-day difference between the real date and the desired date;
with real date 2020-03-01 and target 2020-01-15 every subsequent read
returns the captured time shifted backward by exactly 46 days, and after
`unpatch` the time source is the real clock again. -/
theorem claim_C6 (w : World TimeVal) (time_now : Int)
    (realY realM realD year month day : Nat)
    (hreal : w (timeModule, "time") = TimeVal.real) :
    (∀ t : Int,
        readTime
          (((Patcher.init TimeVal none [] ).patch_today w realY realM realD time_now
              year month day).2 (timeModule, "time")) t =
          time_now -
            ((toOrdinal realY realM realD : Int) - (toOrdinal year month day : Int)) *
              (24 * 60 * 60)) ∧
    (∀ t : Int,
        readTime
          (((Patcher.init TimeVal none [] ).patch_today w 2020 3 1 time_now 2020 1 15).2
            (timeModule, "time")) t =
          time_now - 46 * (24 * 60 * 60)) ∧
    ((((Patcher.init TimeVal none [] ).patch_today w realY realM realD time_now
          year month day).1.unpatch
        (((Patcher.init TimeVal none [] ).patch_today w realY realM realD time_now
          year month day).2)).2 (timeModule, "time") = TimeVal.real) ∧
    (∀ t : Int, readTime TimeVal.real t = t) := by
  have hgen : ∀ (rY rM rD y m d : Nat) (t : Int),
      readTime
          (((Patcher.init TimeVal none [] ).patch_today w rY rM rD time_now y m d).2
            (timeModule, "time")) t =
        time_now -
          ((toOrdinal rY rM rD : Int) - (toOrdinal y m d : Int)) * (24 * 60 * 60) := by
    intro rY rM rD y m d t
    unfold Patcher.patch_today Patcher.patch Patcher.init Patcher.patch1 setattr
    simp [readTime]
  refine ⟨fun t => hgen realY realM realD year month day t, ?_, ?_, fun t => rfl⟩
  · intro t
    rw [hgen 2020 3 1 2020 1 15 t]
    have h1 : toOrdinal 2020 3 1 = 737485 := by decide
    have h2 : toOrdinal 2020 1 15 = 737439 := by decide
    rw [h1, h2]
    norm_num
  · unfold Patcher.patch_today
    dsimp only
    rw [unpatch_patch_init]
    exact hreal

/-- **C6, witness.**  A world whose `time.time` slot is the real clock,
real date 2020-03-01, captured time 1000000: the patched source reads
`1000000 - 46 * 86400` at every instant and `unpatch` restores the real
clock. -/
theorem claim_C6_witness :
    ((fun _ => TimeVal.real : World TimeVal) (timeModule, "time") = TimeVal.real) ∧
      (∀ t : Int,
        readTime
          (((Patcher.init TimeVal none [] ).patch_today (fun _ => TimeVal.real)
              2020 3 1 1000000 2020 1 15).2 (timeModule, "time")) t =
          1000000 - 46 * (24 * 60 * 60)) :=
  ⟨rfl,
    (claim_C6 (fun _ => TimeVal.real) 1000000 2020 3 1 2020 1 15 rfl).2.1⟩

/-! ## Lemmas about the embedded dict and `_unify_args` -/

/-- Lookup distributes over append: the left dict wins. -/
lemma dget_append (d1 d2 : List (String × PyVal)) (k : String) :
    dget (d1 ++ d2) k = (dget d1 k).or (dget d2 k) := by
  unfold dget
  rw [List.find?_append]
  cases h : d1.find? (fun e => e.1 == k) <;> simp [Option.or]

/-- `setdefault` never disturbs a key that is already bound. -/
lemma dget_setdefault_of_some {d : List (String × PyVal)} {k : String} {v : PyVal}
    (a : String) (b : PyVal) (h : dget d k = some v) :
    dget (setdefault d a b) k = some v := by
  unfold setdefault
  by_cases hm : dmem d a
  · rw [if_pos hm]; exact h
  · rw [if_neg hm, dget_append, h]; rfl

/-- `setdefault` binds an absent key exactly when it is the added one. -/
lemma dget_setdefault_of_none {d : List (String × PyVal)} {k : String}
    (a : String) (b : PyVal) (h : dget d k = none) :
    dget (setdefault d a b) k = (if a == k then some b else none) := by
  unfold setdefault
  by_cases hm : dmem d a
  · rw [if_pos hm, h]
    by_cases hak : a == k
    · exfalso
      have : a = k := by simpa using hak
      subst this
      unfold dmem at hm
      rw [h] at hm
      simp at hm
    · rw [if_neg hak]
  · rw [if_neg hm, dget_append, h]
    cases hak : (a == k) <;> simp [dget, List.find?, hak, Option.or]

/-- Folding `setdefault` never disturbs a key bound in the accumulator. -/
lemma dget_foldl_setdefault_of_some {k : String} {v : PyVal} :
    ∀ (ps : List (String × PyVal)) (d : List (String × PyVal)),
      dget d k = some v →
      dget (ps.foldl (fun r e => setdefault r e.1 e.2) d) k = some v
  | [], d, h => h
  | (a, b) :: rest, d, h => by
    rw [List.foldl_cons]
    exact dget_foldl_setdefault_of_some rest (setdefault d a b)
      (dget_setdefault_of_some a b h)

/-- Folding `setdefault` over pairs binds an initially-absent key to the
value of the *first* pair carrying it, if any. -/
lemma dget_foldl_setdefault_of_none {k : String} :
    ∀ (ps : List (String × PyVal)) (d : List (String × PyVal)),
      dget d k = none →
      dget (ps.foldl (fun r e => setdefault r e.1 e.2) d) k =
        (ps.find? (fun e => e.1 == k)).map (fun e => e.2)
  | [], d, h => h
  | (a, b) :: rest, d, h => by
    rw [List.foldl_cons, List.find?]
    cases hak : (a == k) with
    | true =>
      have hd : dget (setdefault d a b) k = some b := by
        rw [dget_setdefault_of_none a b h, if_pos hak]
      simp only [cond_true]
      rw [dget_foldl_setdefault_of_some rest (setdefault d a b) hd]
      rfl
    | false =>
      have hd : dget (setdefault d a b) k = none := by
        rw [dget_setdefault_of_none a b h, if_neg (by simp [hak])]
      simp only [cond_false]
      exact dget_foldl_setdefault_of_none rest (setdefault d a b) hd

/-- Assignment `d[k] = v` makes lookup of `k` return `v`. -/
lemma dget_dset_same : ∀ (d : List (String × PyVal)) (k : String) (v : PyVal),
    dget (dset d k v) k = some v
  | [], k, v => by simp [dset, dget, List.find?]
  | (k0, v0) :: rest, k, v => by
    unfold dset
    cases h : (k0 == k) with
    | true => simp [dget, List.find?, h]
    | false =>
      rw [if_neg (by simp [h])]
      unfold dget at *
      rw [List.find?]
      simp only [h, cond_false]
      exact dget_dset_same rest k v

/-- In a zip whose name prefix has no duplicates, `find?` on the `j`-th
name returns the `j`-th pair. -/
lemma find?_zip_nodup :
    ∀ (names : List String) (vals : List PyVal) (j : Nat)
      (h1 : j < names.length) (h2 : j < vals.length),
      (names.take vals.length).Nodup →
      (names.zip vals).find? (fun e => e.1 == names.get ⟨j, h1⟩) =
        some (names.get ⟨j, h1⟩, vals.get ⟨j, h2⟩)
  | n :: ns, v :: vs, 0, h1, h2, hnd => by
    simp [List.zip_cons_cons, List.find?]
  | n :: ns, v :: vs, j + 1, h1, h2, hnd => by
    rw [List.zip_cons_cons, List.find?]
    have hj2 : j < vs.length := Nat.lt_of_succ_lt_succ h2
    have hj1 : j < ns.length := Nat.lt_of_succ_lt_succ h1
    have hget : (n :: ns).get ⟨j + 1, h1⟩ = ns.get ⟨j, hj1⟩ := rfl
    have hnd3 : (n :: ns.take vs.length).Nodup := by
      simpa [List.take_succ_cons] using hnd
    rw [List.nodup_cons] at hnd3
    have hmem : ns.get ⟨j, hj1⟩ ∈ ns.take vs.length := by
      have h3 : j < (ns.take vs.length).length := by
        simp only [List.length_take]
        exact lt_min hj2 hj1
      have h4 : (ns.take vs.length).get ⟨j, h3⟩ = ns.get ⟨j, hj1⟩ := by
        rw [List.get_eq_getElem, List.get_eq_getElem]
        exact List.getElem_take ns
      rw [← h4]
      exact List.get_mem _ _ _
    have hne : n ≠ ns.get ⟨j, hj1⟩ := fun hcon => hnd3.1 (hcon ▸ hmem)
    have hbeq : (n == (n :: ns).get ⟨j + 1, h1⟩) = false := by
      rw [hget]
      exact beq_eq_false_iff_ne.mpr hne
    simp only [hbeq, cond_false]
    rw [hget]
    have hget2 : (v :: vs).get ⟨j + 1, h2⟩ = vs.get ⟨j, hj2⟩ := rfl
    rw [hget2]
    exact find?_zip_nodup ns vs j hj1 hj2 hnd3.2

/-- Reduction of `_unify_args` for a plain introspectable function (no
bound receiver, nothing ignored). -/
lemma unify_args_plain (defaults : List PyVal) (arg_count : Nat)
    (var_names : List String) (args : List PyVal) (kwargs : List (String × PyVal)) :
    _unify_args ⟨true, none, defaults, arg_count, var_names⟩ args kwargs [] =
      some ((var_names.zip
          (if args.length < arg_count then
            args ++ defaults.drop (defaults.length - (arg_count - args.length))
          else args)).foldl (fun r e => setdefault r e.1 e.2) kwargs) := rfl

/-! ## Claims about `_unify_args` -/

/-- **C2, counterexample.**  The claim quantifies over *every* tuple of
positional arguments.  For `def foo(a, b=1)` with no positional and no
keyword arguments there is one declared default but two missing
parameters, and the code left-shifts the default: the result maps `a`
(not the trailing parameter `b`) to `b`'s default `1`, and `b` is absent
— the missing trailing parameters are not "filled from the trailing
slice of the declared defaults". -/
theorem claim_C2_counterexample :
    _unify_args ⟨true, none, [PyVal.int 1], 2, ["a", "b"]⟩ [] [] [] =
        some [("a", PyVal.int 1)] ∧
      dget [("a", PyVal.int 1)] "b" = none :=
  ⟨rfl, rfl⟩

/-- **C2, amended.**  For an introspectable function whose supplied
positional arguments together with its declared defaults cover the whole
parameter list (`arg_count ≤ args.length + defaults.length`, which holds
for every call Python itself would accept), when fewer positional
arguments are supplied than declared parameters `_unify_args` fills each
missing trailing parameter not named in the keyword mapping with the
matching entry of the trailing slice of the declared defaults, and every
name present in the keyword mapping keeps its keyword value (a default
or positional fill never overwrites an explicit keyword). -/
theorem claim_C2_amended (defaults : List PyVal) (arg_count : Nat)
    (var_names : List String) (args : List PyVal) (kwargs : List (String × PyVal))
    (r : List (String × PyVal))
    (hvars : arg_count ≤ var_names.length)
    (hnd : (var_names.take arg_count).Nodup)
    (hlt : args.length < arg_count)
    (hcover : arg_count ≤ args.length + defaults.length)
    (hr : _unify_args ⟨true, none, defaults, arg_count, var_names⟩ args kwargs [] =
      some r) :
    (∀ (k : String) (v : PyVal), dget kwargs k = some v → dget r k = some v) ∧
    (∀ (j : Nat) (hj1 : args.length ≤ j) (hj2 : j < arg_count),
      dget kwargs (var_names.get ⟨j, Nat.lt_of_lt_of_le hj2 hvars⟩) = none →
      dget r (var_names.get ⟨j, Nat.lt_of_lt_of_le hj2 hvars⟩) =
        some (defaults.get
          ⟨defaults.length - (arg_count - args.length) + (j - args.length),
            by omega⟩)) := by
  rw [unify_args_plain, if_pos hlt, Option.some.injEq] at hr
  subst hr
  have hlen2 :
      (args ++ defaults.drop (defaults.length - (arg_count - args.length))).length =
        arg_count := by
    simp only [List.length_append, List.length_drop]
    omega
  constructor
  · intro k v hk
    exact dget_foldl_setdefault_of_some _ kwargs hk
  · intro j hj1 hj2 hnone
    rw [dget_foldl_setdefault_of_none _ kwargs hnone]
    have hj2m :
        j < (args ++ defaults.drop (defaults.length - (arg_count - args.length))).length := by
      omega
    rw [find?_zip_nodup var_names
      (args ++ defaults.drop (defaults.length - (arg_count - args.length))) j
      (Nat.lt_of_lt_of_le hj2 hvars) hj2m (by rw [hlen2]; exact hnd)]
    simp only [Option.map_some']
    congr 1
    rw [List.get_eq_getElem, List.get_eq_getElem]
    rw [List.getElem_append_right hj1]
    exact List.getElem_drop defaults

/-- **C2, witness.**  For `def foo(bar, baz=10)` called with one positional
argument `42` and no keywords, the missing trailing parameter `baz` is
filled with its default `10`. -/
theorem claim_C2_witness :
    ((1 : Nat) < 2) ∧
      dget [("bar", PyVal.int 42), ("baz", PyVal.int 10)] "baz" = some (PyVal.int 10) :=
  ⟨by decide, by
    have h := claim_C2_amended [PyVal.int 10] 2 ["bar", "baz"] [PyVal.int 42] []
      [("bar", PyVal.int 42), ("baz", PyVal.int 10)]
      (by decide) (by decide) (by decide) (by decide) rfl
    exact h.2 1 (by decide) (by decide) rfl⟩

/-- **C7.**  For `def foo(bar, baz=10)`: unifying `((42,), {})` yields
`{"bar": 42, "baz": 10}`; unifying `((42,), {"baz": 23})` yields a dict
mapping `bar` to `42` and `baz` to `23`; excluding `["bar"]` from the
first case yields `{"baz": 10}`. -/
theorem claim_C7 :
    (_unify_args ⟨true, none, [PyVal.int 10], 2, ["bar", "baz"]⟩ [PyVal.int 42] [] [] =
        some [("bar", PyVal.int 42), ("baz", PyVal.int 10)]) ∧
      (_unify_args ⟨true, none, [PyVal.int 10], 2, ["bar", "baz"]⟩ [PyVal.int 42]
          [("baz", PyVal.int 23)] [] =
          some [("baz", PyVal.int 23), ("bar", PyVal.int 42)] ∧
        dget [("baz", PyVal.int 23), ("bar", PyVal.int 42)] "bar" = some (PyVal.int 42) ∧
        dget [("baz", PyVal.int 23), ("bar", PyVal.int 42)] "baz" = some (PyVal.int 23)) ∧
      (_unify_args ⟨true, none, [PyVal.int 10], 2, ["bar", "baz"]⟩ [PyVal.int 42] []
          ["bar"] =
        some [("baz", PyVal.int 10)]) :=
  ⟨rfl, ⟨rfl, rfl, rfl⟩, rfl⟩

/-- **C8.**  For a callable with no introspectable parameter list
(`hasattr(func, '__code__')` false), `_unify_args` stores the whole
positional-argument tuple verbatim under the single reserved key
`"args"`, whatever the other fields, arguments and keywords are. -/
theorem claim_C8 (self_val : Option PyVal) (defaults : List PyVal) (arg_count : Nat)
    (var_names : List String) (args : List PyVal) (kwargs : List (String × PyVal)) :
    _unify_args ⟨false, self_val, defaults, arg_count, var_names⟩ args kwargs [] =
        some (dset kwargs "args" (PyVal.tuple args)) ∧
      dget (dset kwargs "args" (PyVal.tuple args)) "args" = some (PyVal.tuple args) :=
  ⟨rfl, dget_dset_same kwargs "args" (PyVal.tuple args)⟩
